import Mathlib

/-!
Verification of the CodeHydra PyPI launcher
(`src/packages/pypi/src/codehydra/__init__.py`) against its specification.

The launcher resolves a platform-specific release asset, downloads it to a
per-version cache directory, extracts zip assets, marks the binary executable,
and hands the process off to it.  We embed the module shallowly: paths are
plain strings joined with "/", the filesystem is a map from path to content,
and the effectful `main` is a function from an explicit world (OS identifiers,
environment, filesystem-existence oracle, argv, child process behaviour) to
the list of I/O actions it performs plus the final process handoff.
-/

namespace CodeHydra

/-- Paths are modelled as plain strings; `pathlib`'s `/` operator is string
concatenation with a separator (the launcher only ever builds normalized
relative extensions of already-normalized bases). -/
def pathJoin (a b : String) : String := a ++ "/" ++ b

/-- The environment variables the launcher reads (`os.environ.get`);
`none` means unset. -/
structure Env where
  xdgDataHome : Option String
  localAppData : Option String

/-- Embeds the module constant `REPO`. -/
def REPO : String := "stefanhoelzl/codehydra"

/-- Embeds the module constant `ASSET_MAP`: (platform.system(), platform.machine())
keys to GitHub release asset names. -/
def ASSET_MAP : List ((String × String) × String) :=
  [(("Linux", "x86_64"), "CodeHydra-linux-x64.AppImage"),
   (("Darwin", "x86_64"), "CodeHydra-darwin-x64.zip"),
   (("Darwin", "arm64"), "CodeHydra-darwin-arm64.zip"),
   (("Windows", "AMD64"), "CodeHydra-win-portable-x64.zip")]

/-- Embeds `get_cache_dir(pkg_version)`: the platform-specific cache directory,
or the `RuntimeError` message it raises on an unsupported OS.  `platform.system()`,
`Path.home()` and the environment are explicit parameters. -/
def get_cache_dir (system : String) (env : Env) (home : String)
    (pkg_version : String) : Except String String :=
  if system = "Linux" then
    let base := env.xdgDataHome.getD (pathJoin (pathJoin home ".local") "share")
    Except.ok (pathJoin (pathJoin (pathJoin base "codehydra") "releases") pkg_version)
  else if system = "Darwin" then
    Except.ok (pathJoin (pathJoin (pathJoin (pathJoin (pathJoin home "Library")
      "Application Support") "Codehydra") "releases") pkg_version)
  else if system = "Windows" then
    let base := env.localAppData.getD (pathJoin (pathJoin home "AppData") "Local")
    Except.ok (pathJoin (pathJoin (pathJoin base "Codehydra") "releases") pkg_version)
  else
    Except.error ("Unsupported platform: " ++ system)

/-- Embeds `get_asset_name()`: looks (system, machine) up in ASSET_MAP; the Python
`if not asset` check also fires on an empty string, so the lookup default is "". -/
def get_asset_name (system machine : String) : Except String String :=
  let asset := (ASSET_MAP.lookup (system, machine)).getD ""
  if asset = "" then
    Except.error ("Unsupported platform: " ++ system ++ "-" ++ machine)
  else
    Except.ok asset

/-- Embeds `asset_name.replace(".zip", "")` specialized to the pattern ".zip":
Python `str.replace` removes every non-overlapping occurrence, scanning left to
right. -/
def stripZipAll : List Char → List Char
  | [] => []
  | c :: rest =>
    if c = '.' ∧ rest.take 3 = ['z', 'i', 'p'] then stripZipAll (rest.drop 3)
    else c :: stripZipAll rest
termination_by l => l.length
decreasing_by
  all_goals simp [List.length_drop]
  all_goals omega

/-- String-level wrapper for `asset_name.replace(".zip", "")`. -/
def replaceZip (s : String) : String := String.mk (stripZipAll s.data)

/-- Embeds `get_binary_path(cache_dir, asset_name)`: the executable location
inside the cache directory, branching on `platform.system()`. -/
def get_binary_path (system : String) (cache_dir asset_name : String) : String :=
  if system = "Windows" then
    pathJoin (pathJoin cache_dir "CodeHydra-win-portable-x64") "CodeHydra.exe"
  else if system = "Darwin" then
    let app_name := replaceZip asset_name
    pathJoin (pathJoin (pathJoin (pathJoin (pathJoin cache_dir app_name)
      "CodeHydra.app") "Contents") "MacOS") "CodeHydra"
  else
    pathJoin cache_dir asset_name

/-- Embeds Python `str.endswith`. -/
def pyEndswith (s suffix : String) : Bool := List.isSuffixOf suffix.data s.data

/-- The download URL built in `main`:
`f"https://github.com/{REPO}/releases/download/v{pkg_version}/{asset_name}"`. -/
def download_url (pkg_version asset_name : String) : String :=
  "https://github.com/" ++ REPO ++ "/releases/download/v" ++ pkg_version
    ++ "/" ++ asset_name

/-- The I/O actions `main` can perform while installing. -/
inductive Action where
  | print (msg : String)
  | mkdirParents (path : String)
  | download (url : String) (dest : String)
  | extractZip (archive : String) (destDir : String)
  | unlink (path : String)
  | chmodAddExec (path : String)
deriving DecidableEq

/-- How `main` ends: replace the process image (`os.execv`) or spawn a child,
wait, and exit with its return code (`sys.exit(subprocess.run(...).returncode)`). -/
inductive Handoff where
  | execv (path : String) (argv : List String)
  | spawnExit (code : Int)
deriving DecidableEq

/-- The world `main` runs in: platform identifiers, home and environment,
package version (from `importlib.metadata`), a filesystem-existence oracle for
`binary_path.exists()`, the process argv, and the Windows child's exit-code
behaviour as a function of its command line. -/
structure World where
  system : String
  machine : String
  home : String
  env : Env
  pkgVersion : String
  fsExists : String → Bool
  argv : List String
  childRun : List String → Int

/-- Embeds `main()`: returns the install-time I/O actions in order, and either
the `RuntimeError` message of a failed resolution (raised before any I/O) or
the final process handoff. -/
def mainRun (w : World) : List Action × Except String Handoff :=
  match get_cache_dir w.system w.env w.home w.pkgVersion with
  | Except.error e => ([], Except.error e)
  | Except.ok cache_dir =>
    match get_asset_name w.system w.machine with
    | Except.error e => ([], Except.error e)
    | Except.ok asset_name =>
      let binary_path := get_binary_path w.system cache_dir asset_name
      let download_path := pathJoin cache_dir asset_name
      let installActions :=
        if w.fsExists binary_path then [] else
          [Action.print ("Downloading CodeHydra " ++ w.pkgVersion ++ "..."),
           Action.mkdirParents cache_dir,
           Action.download (download_url w.pkgVersion asset_name) download_path]
          ++ (if pyEndswith asset_name ".zip" then
                [Action.print "Extracting...",
                 Action.extractZip download_path cache_dir,
                 Action.unlink download_path]
              else [])
          ++ (if w.system = "Windows" then [] else [Action.chmodAddExec binary_path])
          ++ [Action.print "Done!\n"]
      let handoff :=
        if w.system = "Windows" then
          Handoff.spawnExit (w.childRun (binary_path :: w.argv.drop 1))
        else
          Handoff.execv binary_path (binary_path :: w.argv.drop 1)
      (installActions, Except.ok handoff)

/-- The pure resolution pipeline of `main` (cache dir, asset name, binary path):
it reads only the platform identifiers, environment, home, and version — never
the filesystem. -/
def resolveBinaryPath (system machine home : String) (env : Env)
    (pkg_version : String) : Except String String :=
  match get_cache_dir system env home pkg_version with
  | Except.error e => Except.error e
  | Except.ok cache_dir =>
    match get_asset_name system machine with
    | Except.error e => Except.error e
    | Except.ok asset_name => Except.ok (get_binary_path system cache_dir asset_name)

/-! ### String helper lemmas -/

theorem str_ext {a b : String} (h : a.data = b.data) : a = b :=
  congrArg String.mk h

theorem str_append_assoc (a b c : String) : a ++ b ++ c = a ++ (b ++ c) := by
  apply str_ext
  simp [String.data_append, List.append_assoc]

theorem str_append_left_cancel {a b c : String} (h : a ++ b = a ++ c) : b = c := by
  apply str_ext
  have := congrArg String.data h
  simp only [String.data_append] at this
  exact List.append_cancel_left this

/-- Whether a character list contains an occurrence of the pattern ".zip"
(the occurrence test matching `stripZipAll`'s scan). -/
def containsZip : List Char → Bool
  | [] => false
  | c :: rest =>
    if c = '.' ∧ rest.take 3 = ['z', 'i', 'p'] then true else containsZip rest

/-- Unfolding of `mainRun` once platform resolution has succeeded. -/
theorem mainRun_resolved (w : World) (cd an : String)
    (hc : get_cache_dir w.system w.env w.home w.pkgVersion = Except.ok cd)
    (ha : get_asset_name w.system w.machine = Except.ok an) :
    mainRun w =
      ((if w.fsExists (get_binary_path w.system cd an) then [] else
          [Action.print ("Downloading CodeHydra " ++ w.pkgVersion ++ "..."),
           Action.mkdirParents cd,
           Action.download (download_url w.pkgVersion an) (pathJoin cd an)]
          ++ (if pyEndswith an ".zip" then
                [Action.print "Extracting...",
                 Action.extractZip (pathJoin cd an) cd,
                 Action.unlink (pathJoin cd an)]
              else [])
          ++ (if w.system = "Windows" then []
              else [Action.chmodAddExec (get_binary_path w.system cd an)])
          ++ [Action.print "Done!\n"]),
       Except.ok (if w.system = "Windows" then
          Handoff.spawnExit
            (w.childRun (get_binary_path w.system cd an :: w.argv.drop 1))
        else
          Handoff.execv (get_binary_path w.system cd an)
            (get_binary_path w.system cd an :: w.argv.drop 1))) := by
  unfold mainRun
  rw [hc, ha]

/-! ### Claim theorems -/

/-- Claim C4: on (Linux, x86_64) with version "1.2.3" the asset resolves to
"CodeHydra-linux-x64.AppImage", the download URL is the GitHub release URL for
tag v1.2.3, the cache directory is the XDG_DATA_HOME override (when set, else
the home-relative default) extended by codehydra/releases/1.2.3, the binary
path is that directory extended by the asset name, and the install step never
performs an extraction action because the asset name does not end in ".zip". -/
theorem c4_linux_end_to_end (home d : String) (lad : Option String)
    (fs : String → Bool) (argv : List String) (cr : List String → Int) :
    get_asset_name "Linux" "x86_64" = Except.ok "CodeHydra-linux-x64.AppImage"
    ∧ download_url "1.2.3" "CodeHydra-linux-x64.AppImage"
      = "https://github.com/stefanhoelzl/codehydra/releases/download/v1.2.3/CodeHydra-linux-x64.AppImage"
    ∧ get_cache_dir "Linux" ⟨some d, lad⟩ home "1.2.3"
      = Except.ok (d ++ "/codehydra/releases/1.2.3")
    ∧ get_cache_dir "Linux" ⟨none, lad⟩ home "1.2.3"
      = Except.ok (home ++ "/.local/share/codehydra/releases/1.2.3")
    ∧ get_binary_path "Linux" (d ++ "/codehydra/releases/1.2.3") "CodeHydra-linux-x64.AppImage"
      = d ++ "/codehydra/releases/1.2.3/CodeHydra-linux-x64.AppImage"
    ∧ (∀ (e : Env) (a b : String),
        Action.extractZip a b ∉ (mainRun ⟨"Linux", "x86_64", home, e, "1.2.3", fs, argv, cr⟩).1) := by
  refine ⟨rfl, rfl, ?_, ?_, ?_, ?_⟩
  · simp only [get_cache_dir, if_pos rfl, Option.getD, pathJoin, str_append_assoc]
    exact congrArg (fun s => Except.ok (d ++ s)) (by decide)
  · simp only [get_cache_dir, if_pos rfl, Option.getD, pathJoin, str_append_assoc]
    exact congrArg (fun s => Except.ok (home ++ s)) (by decide)
  · simp only [get_binary_path, pathJoin, str_append_assoc]
    rw [if_neg (by decide), if_neg (by decide)]
    exact congrArg (fun s => d ++ s) (by decide)
  · intro e a b
    have hz : pyEndswith "CodeHydra-linux-x64.AppImage" ".zip" = false := rfl
    rw [mainRun_resolved ⟨"Linux", "x86_64", home, e, "1.2.3", fs, argv, cr⟩
      (pathJoin (pathJoin (pathJoin (e.xdgDataHome.getD
        (pathJoin (pathJoin home ".local") "share")) "codehydra") "releases") "1.2.3")
      "CodeHydra-linux-x64.AppImage" rfl rfl]
    simp only [hz, if_false, Bool.false_eq_true]
    split
    · simp
    · simp

/-- Claim C8: on macOS the binary path is obtained by stripping ".zip" from the
asset name to get the bundle directory and descending into
CodeHydra.app/Contents/MacOS/CodeHydra; in particular for (Darwin, arm64) the
asset is "CodeHydra-darwin-arm64.zip" and the binary path is the cache
directory extended by
/CodeHydra-darwin-arm64/CodeHydra.app/Contents/MacOS/CodeHydra. -/
theorem c8_darwin_binary_path :
    get_asset_name "Darwin" "arm64" = Except.ok "CodeHydra-darwin-arm64.zip"
    ∧ get_asset_name "Darwin" "x86_64" = Except.ok "CodeHydra-darwin-x64.zip"
    ∧ replaceZip "CodeHydra-darwin-arm64.zip" = "CodeHydra-darwin-arm64"
    ∧ replaceZip "CodeHydra-darwin-x64.zip" = "CodeHydra-darwin-x64"
    ∧ (∀ cd : String, get_binary_path "Darwin" cd "CodeHydra-darwin-arm64.zip"
        = cd ++ "/CodeHydra-darwin-arm64/CodeHydra.app/Contents/MacOS/CodeHydra")
    ∧ (∀ cd : String, get_binary_path "Darwin" cd "CodeHydra-darwin-x64.zip"
        = cd ++ "/CodeHydra-darwin-x64/CodeHydra.app/Contents/MacOS/CodeHydra") := by
  have h1 : replaceZip "CodeHydra-darwin-arm64.zip" = "CodeHydra-darwin-arm64" := by
    simp [replaceZip, stripZipAll]
  have h2 : replaceZip "CodeHydra-darwin-x64.zip" = "CodeHydra-darwin-x64" := by
    simp [replaceZip, stripZipAll]
  refine ⟨rfl, rfl, h1, h2, ?_, ?_⟩
  · intro cd
    simp only [get_binary_path, pathJoin, h1, str_append_assoc]
    rw [if_neg (by decide)]
    exact congrArg (fun s => cd ++ s) (by decide)
  · intro cd
    simp only [get_binary_path, pathJoin, h2, str_append_assoc]
    rw [if_neg (by decide)]
    exact congrArg (fun s => cd ++ s) (by decide)

/-- Claim C9: cache-directory resolution is injective in the version — on the
same platform with the same environment and home, distinct version strings
yield distinct cache directories. -/
theorem c9_cache_dir_injective (system : String) (env : Env) (home : String)
    (v1 v2 p1 p2 : String) (hne : v1 ≠ v2)
    (h1 : get_cache_dir system env home v1 = Except.ok p1)
    (h2 : get_cache_dir system env home v2 = Except.ok p2) : p1 ≠ p2 := by
  intro hp
  apply hne
  unfold get_cache_dir at h1 h2
  by_cases hL : system = "Linux"
  · rw [if_pos hL] at h1 h2
    injection h1 with h1; injection h2 with h2
    subst h1; subst h2
    exact str_append_left_cancel hp
  · rw [if_neg hL] at h1 h2
    by_cases hD : system = "Darwin"
    · rw [if_pos hD] at h1 h2
      injection h1 with h1; injection h2 with h2
      subst h1; subst h2
      exact str_append_left_cancel hp
    · rw [if_neg hD] at h1 h2
      by_cases hW : system = "Windows"
      · rw [if_pos hW] at h1 h2
        injection h1 with h1; injection h2 with h2
        subst h1; subst h2
        exact str_append_left_cancel hp
      · rw [if_neg hW] at h1; exact absurd h1 (by simp)

/-- Witness for C9 at a concrete platform, environment, and version pair. -/
theorem c9_cache_dir_injective_witness :
    "/home/u/.local/share/codehydra/releases/1.0.0"
      ≠ "/home/u/.local/share/codehydra/releases/2.0.0" :=
  c9_cache_dir_injective "Linux" ⟨none, none⟩ "/home/u" "1.0.0" "2.0.0" _ _
    (by decide) rfl rfl

/-! ### C6: the permission fixup is additive -/

/-- Embeds `stat.S_IXUSR`. -/
def S_IXUSR : Nat := 64

/-- Embeds `stat.S_IXGRP`. -/
def S_IXGRP : Nat := 8

/-- Embeds `stat.S_IXOTH`. -/
def S_IXOTH : Nat := 1

/-- Embeds the mode computed by
`binary_path.chmod(binary_path.stat().st_mode | stat.S_IXUSR | stat.S_IXGRP | stat.S_IXOTH)`. -/
def fixupMode (st_mode : Nat) : Nat := st_mode ||| S_IXUSR ||| S_IXGRP ||| S_IXOTH

theorem testBit_64 (i : Nat) : (64 : Nat).testBit i = decide (i = 6) := by
  rcases Nat.lt_or_ge i 7 with h | h
  · interval_cases i <;> decide
  · have h2 : (64 : Nat) < 2 ^ i :=
      lt_of_lt_of_le (by norm_num) (Nat.pow_le_pow_right (by norm_num) h)
    rw [Nat.testBit_lt_two_pow h2]
    simp
    omega

theorem testBit_8 (i : Nat) : (8 : Nat).testBit i = decide (i = 3) := by
  rcases Nat.lt_or_ge i 4 with h | h
  · interval_cases i <;> decide
  · have h2 : (8 : Nat) < 2 ^ i :=
      lt_of_lt_of_le (by norm_num) (Nat.pow_le_pow_right (by norm_num) h)
    rw [Nat.testBit_lt_two_pow h2]
    simp
    omega

theorem testBit_1 (i : Nat) : (1 : Nat).testBit i = decide (i = 0) := by
  rcases Nat.lt_or_ge i 1 with h | h
  · interval_cases i; decide
  · have h2 : (1 : Nat) < 2 ^ i :=
      lt_of_lt_of_le (by norm_num) (Nat.pow_le_pow_right (by norm_num) h)
    rw [Nat.testBit_lt_two_pow h2]
    simp
    omega

/-- Claim C6: the permission fixup ORs in exactly the owner/group/other execute
bits (6, 3, 0): a bit is set afterwards iff it was set before or is one of the
three execute bits — so every pre-existing bit is preserved and no other bit
changes; and the fixup action targets the resolved binary, and is performed by
`main` exactly on non-Windows fresh installs. -/
theorem c6_chmod_additive :
    (∀ (st_mode i : Nat),
      (fixupMode st_mode).testBit i = true
        ↔ (st_mode.testBit i = true ∨ i = 0 ∨ i = 3 ∨ i = 6))
    ∧ (∀ (w : World) (cd an : String),
        get_cache_dir w.system w.env w.home w.pkgVersion = Except.ok cd →
        get_asset_name w.system w.machine = Except.ok an →
        w.fsExists (get_binary_path w.system cd an) = false →
        ¬w.system = "Windows" →
        Action.chmodAddExec (get_binary_path w.system cd an) ∈ (mainRun w).1) := by
  constructor
  · intro m i
    simp only [fixupMode, S_IXUSR, S_IXGRP, S_IXOTH, Nat.testBit_or,
      testBit_64, testBit_8, testBit_1]
    simp only [Bool.or_eq_true, decide_eq_true_eq]
    tauto
  · intro w cd an hc ha hfs hw
    rw [mainRun_resolved w cd an hc ha]
    rw [if_neg (by simp [hfs])]
    simp [hw]

/-- Witness for C6 at mode 0o644 and a concrete non-Windows world. -/
theorem c6_chmod_additive_witness :
    ((fixupMode 420).testBit 6 = true ∧ (fixupMode 420).testBit 7 = true)
    ∧ Action.chmodAddExec
        "/h/.local/share/codehydra/releases/1.2.3/CodeHydra-linux-x64.AppImage"
        ∈ (mainRun ⟨"Linux", "x86_64", "/h", ⟨none, none⟩, "1.2.3",
            fun _ => false, [], fun _ => 0⟩).1 := by
  constructor
  · constructor
    · exact (c6_chmod_additive.1 420 6).mpr (by tauto)
    · exact (c6_chmod_additive.1 420 7).mpr (Or.inl (by decide))
  · exact c6_chmod_additive.2 ⟨"Linux", "x86_64", "/h", ⟨none, none⟩, "1.2.3",
      fun _ => false, [], fun _ => 0⟩ _ _ rfl rfl rfl (by decide)

/-! ### C10: the macOS bundle name removes every ".zip" occurrence -/

theorem stripZipAll_append (r : List Char) :
    ∀ t : List Char, containsZip t = false →
      stripZipAll (t ++ '.' :: 'z' :: 'i' :: 'p' :: r) = t ++ stripZipAll r := by
  intro t
  induction t with
  | nil =>
    intro _
    simp [stripZipAll]
  | cons c t ih =>
    intro h
    have hc1 : ¬(c = '.' ∧ t.take 3 = ['z', 'i', 'p']) := by
      intro hc
      rw [containsZip, if_pos hc] at h
      exact absurd h (by simp)
    have h' : containsZip t = false := by
      rwa [containsZip, if_neg hc1] at h
    have hc2 : ¬(c = '.' ∧ (t ++ '.' :: 'z' :: 'i' :: 'p' :: r).take 3
        = ['z', 'i', 'p']) := by
      rintro ⟨hcdot, htake⟩
      rcases t with _ | ⟨a, _ | ⟨b, _ | ⟨d, t'⟩⟩⟩
      · simp at htake
      · simp at htake
      · simp at htake
      · simp at htake
        exact hc1 ⟨hcdot, by simp [htake.1, htake.2.1, htake.2.2]⟩
    rw [List.cons_append, stripZipAll, if_neg hc2, ih h', List.cons_append]

/-- Claim C10: the macOS bundle directory name removes every occurrence of
".zip" from the asset name: when the only occurrence is the final extension
the result is the extension-stripped name, but "a.zip.b.zip" becomes "a.b",
not "a.zip.b". -/
theorem c10_replace_removes_all :
    (∀ t : List Char, containsZip t = false →
      replaceZip (String.mk (t ++ ['.', 'z', 'i', 'p'])) = String.mk t)
    ∧ replaceZip "a.zip.b.zip" = "a.b"
    ∧ replaceZip "a.zip.b.zip" ≠ "a.zip.b" := by
  refine ⟨?_, ?_, ?_⟩
  · intro t ht
    show String.mk (stripZipAll (t ++ ['.', 'z', 'i', 'p'])) = String.mk t
    have h := stripZipAll_append [] t ht
    rw [show t ++ ['.', 'z', 'i', 'p'] = t ++ '.' :: 'z' :: 'i' :: 'p' :: [] from rfl, h]
    simp [stripZipAll]
  · simp [replaceZip, stripZipAll]
  · simp [replaceZip, stripZipAll]

/-- Witness for C10 on the real macOS asset name. -/
theorem c10_replace_removes_all_witness :
    replaceZip (String.mk ("CodeHydra-darwin-arm64".data ++ ['.', 'z', 'i', 'p']))
      = String.mk "CodeHydra-darwin-arm64".data :=
  c10_replace_removes_all.1 "CodeHydra-darwin-arm64".data (by decide)

/-! ### C3: unsupported platforms fail before any I/O -/

/-- Whether `pat` occurs contiguously inside `s` (used to state what an error
message does or does not mention). -/
def hasSub (pat : List Char) : List Char → Bool
  | [] => pat.isEmpty
  | c :: rest => List.isPrefixOf pat (c :: rest) || hasSub pat rest

/-- Claim C3 (amended): for every (OS, architecture) pair outside the supported
set, `main` fails with an unsupported-platform `RuntimeError` and performs no
I/O actions at all.  When the OS itself is one of Linux/Darwin/Windows the
message names the full OS-architecture key; when the OS is unsupported,
`get_cache_dir` raises first and the message names only the OS. -/
theorem c3_unsupported_platform (w : World)
    (h : (w.system, w.machine) ∉
      ([("Linux", "x86_64"), ("Darwin", "x86_64"), ("Darwin", "arm64"),
        ("Windows", "AMD64")] : List (String × String))) :
    mainRun w = ([], Except.error
      (if w.system = "Linux" ∨ w.system = "Darwin" ∨ w.system = "Windows"
       then "Unsupported platform: " ++ w.system ++ "-" ++ w.machine
       else "Unsupported platform: " ++ w.system)) := by
  rcases w with ⟨sys, mach, home, env, v, fs, argv, cr⟩
  simp only [List.mem_cons, List.not_mem_nil, or_false, not_or] at h
  obtain ⟨h1, h2, h3, h4⟩ := h
  have hlk : ASSET_MAP.lookup (sys, mach) = none := by
    have e1 : ((sys, mach) == ("Linux", "x86_64")) = false := beq_eq_false_iff_ne.mpr h1
    have e2 : ((sys, mach) == ("Darwin", "x86_64")) = false := beq_eq_false_iff_ne.mpr h2
    have e3 : ((sys, mach) == ("Darwin", "arm64")) = false := beq_eq_false_iff_ne.mpr h3
    have e4 : ((sys, mach) == ("Windows", "AMD64")) = false := beq_eq_false_iff_ne.mpr h4
    simp [ASSET_MAP, List.lookup, e1, e2, e3, e4]
  have hga : get_asset_name sys mach
      = Except.error ("Unsupported platform: " ++ sys ++ "-" ++ mach) := by
    simp [get_asset_name, hlk]
  by_cases hL : sys = "Linux"
  · subst hL
    unfold mainRun
    rw [show get_cache_dir "Linux" env home v = Except.ok (pathJoin (pathJoin
      (pathJoin (env.xdgDataHome.getD (pathJoin (pathJoin home ".local") "share"))
      "codehydra") "releases") v) from rfl]
    dsimp only
    rw [hga, if_pos (Or.inl rfl)]
  · by_cases hD : sys = "Darwin"
    · subst hD
      unfold mainRun
      rw [show get_cache_dir "Darwin" env home v = Except.ok (pathJoin (pathJoin
        (pathJoin (pathJoin (pathJoin home "Library") "Application Support")
        "Codehydra") "releases") v) from rfl]
      dsimp only
      rw [hga, if_pos (Or.inr (Or.inl rfl))]
    · by_cases hW : sys = "Windows"
      · subst hW
        unfold mainRun
        rw [show get_cache_dir "Windows" env home v = Except.ok (pathJoin (pathJoin
          (pathJoin (env.localAppData.getD (pathJoin (pathJoin home "AppData")
          "Local")) "Codehydra") "releases") v) from rfl]
        dsimp only
        rw [hga, if_pos (Or.inr (Or.inr rfl))]
      · have hcd : get_cache_dir sys env home v
            = Except.error ("Unsupported platform: " ++ sys) := by
          simp [get_cache_dir, hL, hD, hW]
        unfold mainRun
        rw [hcd, if_neg (by simp [hL, hD, hW])]

/-- Counterexample to C3 as stated: for the unsupported pair
(FreeBSD, x86_64), the error message names only the OS — the architecture
of the unmatched key does not appear in it. -/
theorem c3_unsupported_platform_counterexample :
    (("FreeBSD", "x86_64") ∉ ([("Linux", "x86_64"), ("Darwin", "x86_64"),
        ("Darwin", "arm64"), ("Windows", "AMD64")] : List (String × String)))
    ∧ mainRun ⟨"FreeBSD", "x86_64", "/h", ⟨none, none⟩, "1.2.3",
        fun _ => false, [], fun _ => 0⟩
      = ([], Except.error "Unsupported platform: FreeBSD")
    ∧ hasSub "x86_64".data "Unsupported platform: FreeBSD".data = false :=
  ⟨by decide, rfl, by decide⟩

/-- Witness for C3 (amended) at the concrete unsupported pairs
(FreeBSD, x86_64) and (Linux, arm64). -/
theorem c3_unsupported_platform_witness :
    mainRun ⟨"FreeBSD", "x86_64", "/h", ⟨none, none⟩, "1.2.3",
        fun _ => false, [], fun _ => 0⟩
      = ([], Except.error "Unsupported platform: FreeBSD")
    ∧ mainRun ⟨"Linux", "arm64", "/h", ⟨none, none⟩, "1.2.3",
        fun _ => false, [], fun _ => 0⟩
      = ([], Except.error "Unsupported platform: Linux-arm64") := by
  constructor
  · have h := c3_unsupported_platform ⟨"FreeBSD", "x86_64", "/h", ⟨none, none⟩,
      "1.2.3", fun _ => false, [], fun _ => 0⟩ (by decide)
    rw [h, if_neg (by decide)]
    rfl
  · have h := c3_unsupported_platform ⟨"Linux", "arm64", "/h", ⟨none, none⟩,
      "1.2.3", fun _ => false, [], fun _ => 0⟩ (by decide)
    rw [h, if_pos (Or.inl rfl)]
    rfl

/-! ### C2: installation is idempotent, keyed solely on binary existence -/

/-- Claim C2: once resolution succeeds, `main` performs install I/O exactly
when the resolved binary path does not exist (no actions at all on the cached
fast path); the resolution of the binary path reads only the platform
identifiers, environment, home, and version — never the filesystem — so the
handoff (and the binary it targets) is the same however `fsExists` answers. -/
theorem c2_install_idempotent (w : World) (cd an : String)
    (hc : get_cache_dir w.system w.env w.home w.pkgVersion = Except.ok cd)
    (ha : get_asset_name w.system w.machine = Except.ok an) :
    ((mainRun w).1 = [] ↔ w.fsExists (get_binary_path w.system cd an) = true)
    ∧ (∀ f : String → Bool,
        (mainRun { w with fsExists := f }).2 = (mainRun w).2)
    ∧ resolveBinaryPath w.system w.machine w.home w.env w.pkgVersion
        = Except.ok (get_binary_path w.system cd an) := by
  refine ⟨?_, ?_, ?_⟩
  · rw [mainRun_resolved w cd an hc ha]
    by_cases hfs : w.fsExists (get_binary_path w.system cd an) = true
    · simp [hfs]
    · simp only [Bool.not_eq_true] at hfs
      rw [if_neg (by simp [hfs])]
      simp [hfs]
  · intro f
    rw [mainRun_resolved w cd an hc ha,
        mainRun_resolved { w with fsExists := f } cd an hc ha]
  · unfold resolveBinaryPath
    rw [hc, ha]

/-- Witness for C2: a Linux world whose binary is already cached performs no
install actions and resolves the expected binary path. -/
theorem c2_install_idempotent_witness :
    (mainRun ⟨"Linux", "x86_64", "/h", ⟨none, none⟩, "1.2.3",
        fun _ => true, [], fun _ => 0⟩).1 = []
    ∧ resolveBinaryPath "Linux" "x86_64" "/h" ⟨none, none⟩ "1.2.3"
      = Except.ok "/h/.local/share/codehydra/releases/1.2.3/CodeHydra-linux-x64.AppImage" := by
  have h := c2_install_idempotent ⟨"Linux", "x86_64", "/h", ⟨none, none⟩, "1.2.3",
      fun _ => true, [], fun _ => 0⟩
    "/h/.local/share/codehydra/releases/1.2.3" "CodeHydra-linux-x64.AppImage" rfl rfl
  exact ⟨h.1.mpr rfl, h.2.2.trans rfl⟩

/-! ### C7: Windows handoff spawns, waits, and propagates the exit code -/

/-- Claim C7: on Windows, `main` ends by spawning the resolved binary with the
launcher's arguments after the program name forwarded verbatim, and exits with
exactly the child's return code (whatever exit-code behaviour the child has). -/
theorem c7_windows_handoff (w : World) (cd an : String)
    (hw : w.system = "Windows")
    (hc : get_cache_dir w.system w.env w.home w.pkgVersion = Except.ok cd)
    (ha : get_asset_name w.system w.machine = Except.ok an) :
    (mainRun w).2 = Except.ok (Handoff.spawnExit
      (w.childRun (get_binary_path w.system cd an :: w.argv.drop 1))) := by
  rw [mainRun_resolved w cd an hc ha]
  simp [hw]

/-- Witness for C7: a Windows world whose child exits 7 exactly on the
forwarded command line makes the launcher exit 7. -/
theorem c7_windows_handoff_witness :
    (mainRun ⟨"Windows", "AMD64", "/h", ⟨none, none⟩, "1.2.3", fun _ => true,
        ["prog", "a", "b"],
        fun cmd => if cmd = ["/h/AppData/Local/Codehydra/releases/1.2.3/CodeHydra-win-portable-x64/CodeHydra.exe", "a", "b"] then 7 else 0⟩).2
      = Except.ok (Handoff.spawnExit 7) := by
  have h := c7_windows_handoff ⟨"Windows", "AMD64", "/h", ⟨none, none⟩, "1.2.3",
      fun _ => true, ["prog", "a", "b"],
      fun cmd => if cmd = ["/h/AppData/Local/Codehydra/releases/1.2.3/CodeHydra-win-portable-x64/CodeHydra.exe", "a", "b"] then 7 else 0⟩
    "/h/AppData/Local/Codehydra/releases/1.2.3" "CodeHydra-win-portable-x64.zip"
    rfl rfl rfl
  rw [h]
  rfl

/-! ### C5: extraction runs exactly for ".zip" assets -/

/-- Content of a file in the extraction model: raw bytes, or a zip archive
given by its entries (internal relative path, entry bytes). -/
inductive ZContent where
  | raw (bytes : List Nat)
  | zip (entries : List (String × List Nat))

/-- Filesystem for the extraction model: path to content. -/
def Zfs := String → Option ZContent

/-- Write one file. -/
def setF (fs : Zfs) (p : String) (c : ZContent) : Zfs :=
  fun q => if q = p then some c else fs q

/-- Embeds `download_path.unlink()`. -/
def removeF (fs : Zfs) (p : String) : Zfs :=
  fun q => if q = p then none else fs q

/-- Embeds `zf.extractall(cache_dir)`: write every archive entry under the
cache directory, preserving its internal relative path, in order. -/
def extractAll (cache_dir : String) (entries : List (String × List Nat))
    (fs : Zfs) : Zfs :=
  entries.foldl (fun acc e => setF acc (pathJoin cache_dir e.1) (ZContent.raw e.2)) fs

/-- Embeds the extraction step of `main` (the body of
`if asset_name.endswith(".zip")`): open the downloaded archive at
`cache_dir / asset_name` (failing like `zipfile.ZipFile` when it is not a
zip), extract all entries into the cache directory, then delete the archive;
otherwise do nothing. -/
def maybeExtract (asset_name cache_dir : String) (fs : Zfs) : Except String Zfs :=
  let download_path := pathJoin cache_dir asset_name
  if pyEndswith asset_name ".zip" then
    match fs download_path with
    | some (ZContent.zip entries) =>
        Except.ok (removeF (extractAll cache_dir entries fs) download_path)
    | _ => Except.error "BadZipFile"
  else
    Except.ok fs

theorem extractAll_not_target (cache_dir : String) :
    ∀ (entries : List (String × List Nat)) (fs : Zfs) (q : String),
      q ∉ entries.map (fun e => pathJoin cache_dir e.1) →
      extractAll cache_dir entries fs q = fs q := by
  intro entries
  induction entries with
  | nil => intro fs q _; rfl
  | cons e rest ih =>
    intro fs q hq
    simp only [List.map_cons, List.mem_cons, not_or] at hq
    rw [extractAll, List.foldl_cons]
    rw [show List.foldl (fun acc e => setF acc (pathJoin cache_dir e.1)
        (ZContent.raw e.2)) (setF fs (pathJoin cache_dir e.1) (ZContent.raw e.2)) rest
      = extractAll cache_dir rest (setF fs (pathJoin cache_dir e.1)
        (ZContent.raw e.2)) from rfl]
    rw [ih _ q hq.2]
    exact if_neg hq.1

theorem extractAll_target (cache_dir : String) :
    ∀ (entries : List (String × List Nat)) (fs : Zfs) (p : String) (d : List Nat),
      (entries.map (fun e => pathJoin cache_dir e.1)).Nodup →
      (p, d) ∈ entries →
      extractAll cache_dir entries fs (pathJoin cache_dir p)
        = some (ZContent.raw d) := by
  intro entries
  induction entries with
  | nil => intro fs p d _ hmem; simp at hmem
  | cons e rest ih =>
    intro fs p d hnd hmem
    simp only [List.map_cons, List.nodup_cons] at hnd
    rw [extractAll, List.foldl_cons]
    rw [show List.foldl (fun acc e => setF acc (pathJoin cache_dir e.1)
        (ZContent.raw e.2)) (setF fs (pathJoin cache_dir e.1) (ZContent.raw e.2)) rest
      = extractAll cache_dir rest (setF fs (pathJoin cache_dir e.1)
        (ZContent.raw e.2)) from rfl]
    rcases List.mem_cons.mp hmem with heq | hmem'
    · subst heq
      rw [extractAll_not_target cache_dir rest _ _ hnd.1]
      simp [setF]
    · exact ih _ p d hnd.2 hmem'

/-- Claim C5: the extraction step runs exactly when the asset name ends in
".zip".  In that case, every archive entry lands at its cache-relative path
(the archive itself is deleted afterwards, which also wins over an entry
extracted onto the archive path), and no other path changes; otherwise the
step is a no-op — the filesystem, including the downloaded file, is unchanged.
In `main`, an extraction action is performed iff the asset ends in ".zip" and
the binary was not cached. -/
theorem c5_extraction (asset_name cache_dir : String) (fs fs' : Zfs)
    (entries : List (String × List Nat)) :
    (pyEndswith asset_name ".zip" = true →
      fs (pathJoin cache_dir asset_name) = some (ZContent.zip entries) →
      (entries.map (fun e => pathJoin cache_dir e.1)).Nodup →
      maybeExtract asset_name cache_dir fs = Except.ok fs' →
      (fs' (pathJoin cache_dir asset_name) = none
        ∧ (∀ (p : String) (d : List Nat), (p, d) ∈ entries →
            pathJoin cache_dir p ≠ pathJoin cache_dir asset_name →
            fs' (pathJoin cache_dir p) = some (ZContent.raw d))
        ∧ (∀ q : String, q ∉ entries.map (fun e => pathJoin cache_dir e.1) →
            q ≠ pathJoin cache_dir asset_name → fs' q = fs q)))
    ∧ (pyEndswith asset_name ".zip" = false →
        maybeExtract asset_name cache_dir fs = Except.ok fs)
    ∧ (∀ (w : World) (cd an : String),
        get_cache_dir w.system w.env w.home w.pkgVersion = Except.ok cd →
        get_asset_name w.system w.machine = Except.ok an →
        (Action.extractZip (pathJoin cd an) cd ∈ (mainRun w).1
          ↔ (pyEndswith an ".zip" = true
             ∧ w.fsExists (get_binary_path w.system cd an) = false))) := by
  refine ⟨?_, ?_, ?_⟩
  · intro hz hfs hnd hm
    simp only [maybeExtract, hz, if_true] at hm
    rw [hfs] at hm
    injection hm with hm
    subst hm
    refine ⟨by simp [removeF], ?_, ?_⟩
    · intro p d hmem hne
      unfold removeF
      rw [if_neg hne]
      exact extractAll_target cache_dir entries fs p d hnd hmem
    · intro q hq hne
      unfold removeF
      rw [if_neg hne]
      exact extractAll_not_target cache_dir entries fs q hq
  · intro hz
    simp [maybeExtract, hz]
  · intro w cd an hc ha
    rw [mainRun_resolved w cd an hc ha]
    by_cases hfs : w.fsExists (get_binary_path w.system cd an) = true
    · simp [hfs]
    · simp only [Bool.not_eq_true] at hfs
      rw [if_neg (by simp [hfs])]
      by_cases hz : pyEndswith an ".zip" = true
      · simp only [hz, if_true]
        by_cases hw : w.system = "Windows"
        · simp only [hw] at hfs ⊢; simp [hfs]
        · simp [hw, hfs]
      · simp only [Bool.not_eq_true] at hz
        simp only [hz]
        by_cases hw : w.system = "Windows"
        · simp only [hw] at hfs ⊢; simp [hfs]
        · simp [hw, hfs]

/-- Concrete filesystem for the C5 witness: one zip archive in the cache. -/
def zfsW : Zfs :=
  fun q => if q = "c/a.zip" then some (ZContent.zip [("x", [1])]) else none

/-- Witness for C5: extracting "a.zip" in cache "c" produces c/x, deletes
c/a.zip, and leaves other paths alone; a non-zip asset is a no-op. -/
theorem c5_extraction_witness :
    (∃ fs', maybeExtract "a.zip" "c" zfsW = Except.ok fs'
      ∧ fs' "c/a.zip" = none
      ∧ fs' "c/x" = some (ZContent.raw [1])
      ∧ fs' "c/other" = zfsW "c/other")
    ∧ maybeExtract "b.AppImage" "c" zfsW = Except.ok zfsW := by
  constructor
  · refine ⟨removeF (extractAll "c" [("x", [1])] zfsW) (pathJoin "c" "a.zip"),
      rfl, ?_, ?_, ?_⟩
    · exact ((c5_extraction "a.zip" "c" zfsW _ [("x", [1])]).1 rfl rfl
        (by decide) rfl).1
    · exact ((c5_extraction "a.zip" "c" zfsW _ [("x", [1])]).1 rfl rfl
        (by decide) rfl).2.1 "x" [1] (by simp) (by decide)
    · exact ((c5_extraction "a.zip" "c" zfsW _ [("x", [1])]).1 rfl rfl
        (by decide) rfl).2.2 "c/other" (by decide) (by decide)
  · exact (c5_extraction "b.AppImage" "c" zfsW zfsW []).2.1 rfl

/-! ### C1: the download is atomic

The streamed download is modelled over an explicit filesystem (path to file
bytes) and an event list standing for the interaction with `urlopen`'s
response and the disk: each event is a delivered chunk, a network error, or a
disk-write error.  `urlopen` itself and `open(tmp_path, "wb")` can also fail,
before any write happens. -/

/-- Filesystem for the download model: path to file bytes. -/
def FS := String → Option (List Nat)

/-- Write (create/truncate to) the given content, or delete when `none`. -/
def setFile (fs : FS) (p : String) (v : Option (List Nat)) : FS :=
  fun q => if q = p then v else fs q

/-- Embeds `f.write(chunk)` on the file at `p`: append bytes. -/
def appendFile (fs : FS) (p : String) (d : List Nat) : FS :=
  setFile fs p (some (((fs p).getD []) ++ d))

/-- Embeds `tmp_path.rename(dest_path)`: atomic move replacing `dst`. -/
def renameFile (fs : FS) (src dst : String) : FS :=
  setFile (setFile fs dst (fs src)) src none

/-- Embeds `PurePath.name` of a string path: the part after the last "/". -/
def pyName (p : String) : List Char :=
  (p.data.reverse.takeWhile (fun c => c ≠ '/')).reverse

/-- The leading part of `p` up to and including the last "/". -/
def pyDirPart (p : String) : List Char :=
  (p.data.reverse.dropWhile (fun c => c ≠ '/')).reverse

/-- Embeds `PurePath.suffix`: `name[i:]` for `i` the index of the last dot of
the final component when `0 < i < len(name) - 1`, else `""`. -/
def pySuffix (p : String) : String :=
  let name := pyName p
  let after := name.reverse.takeWhile (fun c => c ≠ '.')
  if after.length = name.length then ""
  else if after.length = 0 then ""
  else if name.length = after.length + 1 then ""
  else String.mk ('.' :: after.reverse)

/-- Embeds `PurePath.with_suffix(suffix)`: `none` models the `ValueError`s
(suffix containing a separator, suffix "." or non-empty without a leading dot,
empty name); otherwise the old suffix is dropped from the name and the new one
appended. -/
def pyWithSuffix (p : String) (suffix : String) : Option String :=
  if suffix.data.contains '/' then none
  else if (suffix ≠ "" ∧ suffix.data.head? ≠ some '.') ∨ suffix = "." then none
  else
    let name := pyName p
    if name = [] then none
    else
      let old := (pySuffix p).data
      let newName := name.take (name.length - old.length) ++ suffix.data
      some (String.mk (pyDirPart p ++ newName))

/-- One event of the download's interaction with response and disk. -/
inductive Ev where
  | chunk (data : List Nat)
  | netErr
  | diskErr

/-- The full response body: the concatenation of the delivered chunks. -/
def respBody : List Ev → List Nat
  | [] => []
  | Ev.chunk d :: r => d ++ respBody r
  | Ev.netErr :: r => respBody r
  | Ev.diskErr :: r => respBody r

/-- Embeds the `while chunk := response.read(8192): f.write(chunk)` loop:
append each chunk to the temp file; a network or disk error aborts with the
filesystem as it stands; end of events is end of stream. -/
def writeLoop (tmp : String) : FS → List Ev → Bool × FS
  | fs, [] => (true, fs)
  | fs, Ev.chunk d :: rest => writeLoop tmp (appendFile fs tmp d) rest
  | fs, Ev.netErr :: _ => (false, fs)
  | fs, Ev.diskErr :: _ => (false, fs)

/-- Embeds `download(url, dest_path, pkg_version)`: compute the temp sibling
via `with_suffix` (a `ValueError` propagates with nothing written), open the
URL (`urlopenOk`), open the temp file for writing, truncating it
(`openOk`), stream the body, and only after the loop finishes rename the temp
file onto the destination.  The Bool result is normal return vs. raise. -/
def download (url : String) (dest_path : String) (fs : FS)
    (urlopenOk openOk : Bool) (events : List Ev) : Bool × FS :=
  match pyWithSuffix dest_path (pySuffix dest_path ++ ".tmp") with
  | none => (false, fs)
  | some tmp_path =>
    if urlopenOk = false then (false, fs)
    else if openOk = false then (false, fs)
    else
      match writeLoop tmp_path (setFile fs tmp_path (some [])) events with
      | (false, fs2) => (false, fs2)
      | (true, fs2) => (true, renameFile fs2 tmp_path dest_path)

theorem dropWhile_head_false {α} (q : α → Bool) :
    ∀ (l : List α) (a : α) (t : List α), l.dropWhile q = a :: t → q a = false := by
  intro l
  induction l with
  | nil => intro a t h; simp [List.dropWhile] at h
  | cons b l ih =>
    intro a t h
    rw [List.dropWhile_cons] at h
    by_cases hb : q b = true
    · rw [if_pos hb] at h
      exact ih a t h
    · rw [if_neg hb] at h
      injection h with h1 _
      subst h1
      simpa using hb

theorem pyDirPart_append_name (p : String) : pyDirPart p ++ pyName p = p.data := by
  unfold pyDirPart pyName
  rw [← List.reverse_append, List.takeWhile_append_dropWhile, List.reverse_reverse]

theorem pySuffix_split (p : String) :
    (pyName p).take ((pyName p).length - (pySuffix p).data.length)
      ++ (pySuffix p).data = pyName p := by
  unfold pySuffix
  set name := pyName p with hname
  by_cases h1 : (name.reverse.takeWhile (fun c => c ≠ '.')).length = name.length
  · simp only [h1, if_pos rfl]
    show name.take (name.length - ("" : String).data.length) ++ ("" : String).data = name
    simp [List.take_length]
  · rw [if_neg h1]
    set after := name.reverse.takeWhile (fun c => c ≠ '.') with hafter
    by_cases h2 : after.length = 0
    · simp only [h2, if_pos rfl]
      show name.take (name.length - ("" : String).data.length) ++ ("" : String).data = name
      simp [List.take_length]
    · rw [if_neg h2]
      by_cases h3 : name.length = after.length + 1
      · rw [if_pos h3]
        show name.take (name.length - ("" : String).data.length) ++ ("" : String).data = name
        simp [List.take_length]
      · rw [if_neg h3]
        show name.take (name.length - ('.' :: after.reverse).length)
          ++ ('.' :: after.reverse) = name
        have hsplit : after ++ name.reverse.dropWhile (fun c => c ≠ '.')
            = name.reverse := by
          rw [hafter]
          exact List.takeWhile_append_dropWhile _ _
        obtain ⟨d, t, hd⟩ : ∃ d t, name.reverse.dropWhile (fun c => c ≠ '.')
            = d :: t := by
          cases hdw : name.reverse.dropWhile (fun c => c ≠ '.') with
          | nil =>
            exfalso
            apply h1
            have := hsplit
            rw [hdw, List.append_nil] at this
            rw [this]
            exact List.length_reverse name
          | cons d t => exact ⟨d, t, rfl⟩
        have hdot : d = '.' := by
          have := dropWhile_head_false (fun c => c ≠ '.') name.reverse d t hd
          simpa using this
        subst hdot
        have hrev : name.reverse = after ++ '.' :: t := by rw [← hsplit, hd]
        have hnm : name = t.reverse ++ '.' :: after.reverse := by
          have := congrArg List.reverse hrev
          rw [List.reverse_reverse, List.reverse_append] at this
          simpa using this
        have hlen : name.length - ('.' :: after.reverse).length = t.reverse.length := by
          rw [hnm]
          simp
        rw [hlen, hnm, List.take_left]

theorem pyWithSuffix_tmp (p t : String)
    (h : pyWithSuffix p (pySuffix p ++ ".tmp") = some t) : t = p ++ ".tmp" := by
  unfold pyWithSuffix at h
  split at h
  · exact absurd h (by simp)
  · split at h
    · exact absurd h (by simp)
    · simp only [] at h
      split at h
      · exact absurd h (by simp)
      · injection h with h
        apply str_ext
        rw [← h]
        show pyDirPart p ++ ((pyName p).take ((pyName p).length
            - (pySuffix p).data.length) ++ (pySuffix p ++ ".tmp").data)
          = (p ++ ".tmp").data
        rw [String.data_append, String.data_append]
        rw [show (pyName p).take ((pyName p).length - (pySuffix p).data.length)
              ++ ((pySuffix p).data ++ ".tmp".data)
            = ((pyName p).take ((pyName p).length - (pySuffix p).data.length)
              ++ (pySuffix p).data) ++ ".tmp".data from (List.append_assoc _ _ _).symm]
        rw [pySuffix_split, ← List.append_assoc, pyDirPart_append_name]

theorem append_tmp_ne (p : String) : p ++ ".tmp" ≠ p := by
  intro h
  have := congrArg (fun s => s.data.length) h
  simp only [String.data_append] at this
  simp at this

theorem writeLoop_frame (tmp q : String) (hq : q ≠ tmp) :
    ∀ (evs : List Ev) (fs : FS), (writeLoop tmp fs evs).2 q = fs q := by
  intro evs
  induction evs with
  | nil => intro fs; rfl
  | cons e rest ih =>
    intro fs
    cases e with
    | chunk d =>
      rw [writeLoop, ih]
      unfold appendFile setFile
      rw [if_neg hq]
    | netErr => rfl
    | diskErr => rfl

theorem writeLoop_ok_content (tmp : String) :
    ∀ (evs : List Ev) (fs : FS) (c : List Nat),
      (writeLoop tmp fs evs).1 = true → fs tmp = some c →
      (writeLoop tmp fs evs).2 tmp = some (c ++ respBody evs) := by
  intro evs
  induction evs with
  | nil =>
    intro fs c _ hc
    show fs tmp = some (c ++ respBody [])
    rw [hc]
    simp [respBody]
  | cons e rest ih =>
    intro fs c hok hc
    cases e with
    | chunk d =>
      rw [writeLoop] at hok ⊢
      have hc' : (appendFile fs tmp d) tmp = some (c ++ d) := by
        unfold appendFile setFile
        rw [if_pos rfl, hc]
        rfl
      rw [ih (appendFile fs tmp d) (c ++ d) hok hc']
      simp [respBody]
    | netErr => exact absurd hok (by simp [writeLoop])
    | diskErr => exact absurd hok (by simp [writeLoop])

/-- Claim C1: the downloader writes the body to the temporary sibling path
`dest + ".tmp"` and renames it onto the destination only after the full body
is written.  Hence, for every filesystem, destination, and interaction
(urlopen failure, open failure, chunk deliveries, mid-stream network or disk
errors): if `download` raises, the destination is exactly as it was before
(in particular never a partial file); if it returns normally, the destination
holds the complete response body. -/
theorem c1_download_atomic (url dest : String) (fs : FS) (uo oo : Bool)
    (events : List Ev) :
    ((download url dest fs uo oo events).1 = true →
      (download url dest fs uo oo events).2 dest = some (respBody events))
    ∧ ((download url dest fs uo oo events).1 = false →
      (download url dest fs uo oo events).2 dest = fs dest)
    ∧ (∀ t : String, pyWithSuffix dest (pySuffix dest ++ ".tmp") = some t →
        t = dest ++ ".tmp") := by
  refine ⟨?_, ?_, fun t ht => pyWithSuffix_tmp dest t ht⟩
  all_goals unfold download
  all_goals split
  · intro h; exact absurd h (by simp)
  · rename_i tmp htmp
    have htmp' : tmp = dest ++ ".tmp" := pyWithSuffix_tmp dest tmp htmp
    have hne : dest ≠ tmp := by rw [htmp']; exact fun h => append_tmp_ne dest h.symm
    by_cases huo : uo = false
    · rw [if_pos huo]; intro h; exact absurd h (by simp)
    · rw [if_neg huo]
      by_cases hoo : oo = false
      · rw [if_pos hoo]; intro h; exact absurd h (by simp)
      · rw [if_neg hoo]
        split
        · intro h; rename_i fs2 heq; exact absurd h (by simp)
        · rename_i fs2 heq
          intro _
          show (if dest = tmp then none
            else if dest = dest then fs2 tmp else fs2 dest) = some (respBody events)
          rw [if_neg hne, if_pos rfl]
          have hinit : (setFile fs tmp (some [])) tmp = some [] := by
            unfold setFile; rw [if_pos rfl]
          have hcon := writeLoop_ok_content tmp events (setFile fs tmp (some [])) []
            (by rw [heq]) hinit
          rw [heq] at hcon
          simpa using hcon
  · intro _; rfl
  · rename_i tmp htmp
    have htmp' : tmp = dest ++ ".tmp" := pyWithSuffix_tmp dest tmp htmp
    have hne : dest ≠ tmp := by rw [htmp']; exact fun h => append_tmp_ne dest h.symm
    by_cases huo : uo = false
    · rw [if_pos huo]; intro _; rfl
    · rw [if_neg huo]
      by_cases hoo : oo = false
      · rw [if_pos hoo]; intro _; rfl
      · rw [if_neg hoo]
        split
        · rename_i fs2 heq
          intro _
          have h2 : fs2 dest = setFile fs tmp (some []) dest := by
            have := writeLoop_frame tmp dest hne events (setFile fs tmp (some []))
            rw [heq] at this
            exact this
          show fs2 dest = fs dest
          rw [h2]
          show (if dest = tmp then some [] else fs dest) = fs dest
          rw [if_neg hne]
        · intro h; exact absurd h (by simp)

/-- Concrete filesystem for the C1 witness: the destination already holds
stale bytes. -/
def fsW : FS := fun q => if q = "d.bin" then some [9] else none

/-- Witness for C1: a successful two-chunk download leaves the full body at
the destination; a download failing mid-stream leaves the stale destination
untouched. -/
theorem c1_download_atomic_witness :
    (download "u" "d.bin" fsW true true [Ev.chunk [1, 2], Ev.chunk [3]]).2 "d.bin"
      = some [1, 2, 3]
    ∧ (download "u" "d.bin" fsW true true [Ev.chunk [1], Ev.netErr]).2 "d.bin"
      = some [9] := by
  constructor
  · have h := (c1_download_atomic "u" "d.bin" fsW true true
      [Ev.chunk [1, 2], Ev.chunk [3]]).1 rfl
    exact h.trans rfl
  · have h := (c1_download_atomic "u" "d.bin" fsW true true
      [Ev.chunk [1], Ev.netErr]).2.1 rfl
    exact h.trans rfl

end CodeHydra
